import Mathlib

/-!
Shallow embedding of `src/mantine-form/src/use-form.ts`: the form-state
engine (`useForm`) with its value store, error store, list-field operations,
validation wiring and input-binding adapter. JS objects with string keys are
modelled as association lists; JS `undefined`/`null`/primitive values as the
inductive `JSVal`; a thrown `TypeError` as `Except.error`. State updates that
React performs through `setState` are modelled by explicit state passing on
`FormState`.
-/

namespace Mantine

/-- JS primitive values as they occur in form values and error payloads. -/
inductive JSVal where
  | null
  | undefined
  | bool (b : Bool)
  | num (n : Int)
  | str (s : String)
  deriving DecidableEq, Repr

/-- JS truthiness of a primitive. -/
def JSVal.jsTruthy : JSVal → Bool
  | .null => false
  | .undefined => false
  | .bool b => b
  | .num n => n != 0
  | .str s => s != ""

/-- A list item is a plain JS record: subfield name to primitive value. -/
def Item : Type := List (String × JSVal)

instance : DecidableEq Item := by
  unfold Item
  infer_instance

/-- A field value: a primitive, a plain object, or a `formList`-tagged list of
item records (`FormList` carries an explicit tag distinguishing it from plain
arrays; `isFormList` probes for that tag). -/
inductive FVal where
  | prim (v : JSVal)
  | obj (props : Item)
  | flist (items : List Item)
  deriving DecidableEq

/-- The `formList` constructor from `form-list/form-list.ts`: tags a list of
items as a form list. -/
def formList (items : List Item) : FVal := .flist items

/-- The `isFormList` probe: true exactly on `formList`-tagged values. -/
def isFormList : FVal → Bool
  | .flist _ => true
  | _ => false

/-- JS truthiness of a field value (objects and arrays are always truthy). -/
def FVal.truthy : FVal → Bool
  | .prim v => v.jsTruthy
  | .obj _ => true
  | .flist _ => true

/-- First-match lookup in an association list (JS object property read,
before the `undefined` default is applied). -/
def lookupKey {α : Type} (m : List (String × α)) (k : String) : Option α :=
  match m with
  | [] => none
  | (k0, v) :: rest => if k0 = k then some v else lookupKey rest k

/-- JS spread-update `{...m, [k]: v}`: replaces the value at `k` keeping key
order if `k` is present, appends otherwise. -/
def setKey {α : Type} (m : List (String × α)) (k : String) (v : α) :
    List (String × α) :=
  match m with
  | [] => [(k, v)]
  | (k0, v0) :: rest => if k0 = k then (k, v) :: rest else (k0, v0) :: setKey rest k v

/-- JS `delete clone[k]`: removes the key entirely. -/
def eraseKey {α : Type} (m : List (String × α)) (k : String) : List (String × α) :=
  m.filter (fun kv => kv.1 != k)

/-- The value store `values`: field name to field value. -/
def ValueStore : Type := List (String × FVal)

instance : DecidableEq ValueStore := by
  unfold ValueStore
  infer_instance

/-- The error store `errors`: field name to error payload. -/
def ErrorStore : Type := List (String × FVal)

instance : DecidableEq ErrorStore := by
  unfold ErrorStore
  infer_instance

/-- JS read `values[field]`: a missing key yields `undefined`. -/
def getF (values : ValueStore) (field : String) : FVal :=
  (lookupKey values field).getD (.prim .undefined)

/-- JS read `item[key]` on a record: missing key yields `undefined`. -/
def propGet (item : Item) (k : String) : JSVal :=
  (lookupKey item k).getD .undefined

/-- The pair of React state cells held by `useForm`. -/
structure FormState where
  values : ValueStore
  errors : ErrorStore
  deriving DecidableEq

/-- `clearErrors`: `setErrors({})`. -/
def clearErrors (s : FormState) : FormState :=
  { s with errors := [] }

/-- `setFieldError(field, error)`: `setErrors(current => ({...current, [field]: error}))`. -/
def setFieldError (s : FormState) (field : String) (error : FVal) : FormState :=
  { s with errors := setKey s.errors field error }

/-- The raw `setErrors` state setter, exposed directly on the return object
(direct-replacement form). -/
def setErrors (s : FormState) (e : ErrorStore) : FormState :=
  { s with errors := e }

/-- `clearFieldError(field)`: clones the error object and deletes the key. -/
def clearFieldError (s : FormState) (field : String) : FormState :=
  { s with errors := eraseKey s.errors field }

/-- `setFieldValue(field, value)`: spread-updates the value store, then clears
the field error. -/
def setFieldValue (s : FormState) (field : String) (value : FVal) : FormState :=
  clearFieldError { s with values := setKey s.values field value } field

/-- Modelled from the spec: `filterErrors` (its file
`filter-errors/filter-errors.ts` is not under `src/`). Per the spec,
construction-time error inputs are filtered so that falsy error values never
occupy a key. -/
def filterErrors (e : ErrorStore) : ErrorStore :=
  e.filter (fun kv => kv.2.truthy)

/-- Construction of the initial `FormState` in `useForm`:
`useState(filterErrors(initialErrors))` and `useState(initialValues)`. -/
def useForm (initialValues : ValueStore) (initialErrors : ErrorStore) : FormState :=
  { values := initialValues, errors := filterErrors initialErrors }

/-- `setListItem(field, index, value)`: if `values[field]` is a form list and
`list[index] !== undefined` (item records are JS objects, never `undefined`,
so the probe is exactly a bounds check), clone, overwrite the slot and route
through `setFieldValue`. -/
def setListItem (s : FormState) (field : String) (index : Nat) (value : Item) :
    FormState :=
  match getF s.values field with
  | .flist items =>
      if index < items.length then
        setFieldValue s field (formList (items.set index value))
      else s
  | _ => s

/-- Index set accepted by `removeListItem`: `number[] | number`. -/
inductive Indices where
  | single (i : Nat)
  | multiple (is : List Nat)
  deriving DecidableEq, Repr

/-- The filter predicate of `removeListItem`:
`Array.isArray(indices) ? !indices.includes(index) : indices !== index`. -/
def Indices.keeps : Indices → Nat → Bool
  | .single j, i => i != j
  | .multiple js, i => !js.contains i

/-- JS `Array.prototype.filter` with the element index exposed, starting the
count at `n`. -/
def filterIdx {α : Type} (p : Nat → α → Bool) : Nat → List α → List α
  | _, [] => []
  | n, x :: xs => if p n x then x :: filterIdx p (n + 1) xs else filterIdx p (n + 1) xs

/-- `removeListItem(field, indices)`: if `values[field]` is a form list,
filter out the removed indices and route through `setFieldValue`
(unconditionally, even when no index matches). -/
def removeListItem (s : FormState) (field : String) (indices : Indices) :
    FormState :=
  match getF s.values field with
  | .flist items =>
      setFieldValue s field (formList (filterIdx (fun i _ => indices.keeps i) 0 items))
  | _ => s

/-- `addListItem(field, payload)`: if `values[field]` is a form list, append
the payload and route through `setFieldValue`. -/
def addListItem (s : FormState) (field : String) (payload : Item) : FormState :=
  match getF s.values field with
  | .flist items => setFieldValue s field (formList (items ++ [payload]))
  | _ => s

/-- JS `splice(n, 0, a)` as insertion: clamps the position to the current
length (beyond-the-end positions append). -/
def spliceInsert {α : Type} (n : Nat) (a : α) (l : List α) : List α :=
  l.insertIdx (min n l.length) a

/-- `reorderListItem(field, {from, to})`: if `values[field]` is a form list
and both `list[from]` and `list[to]` are defined (again exactly a bounds check
on record items), remove at `from`, reinsert the saved item at `to`, and route
through `setFieldValue`. -/
def reorderListItem (s : FormState) (field : String) (fromIdx toIdx : Nat) :
    FormState :=
  match getF s.values field with
  | .flist items =>
      if h : fromIdx < items.length ∧ toIdx < items.length then
        setFieldValue s field
          (formList (spliceInsert toIdx (items.get ⟨fromIdx, h.1⟩)
            (items.eraseIdx fromIdx)))
      else s
  | _ => s

/-- JS object-spread of a primitive subfield value, as in
`{ ...value, [listField]: val }` inside `getListInputProps`: spreading a
string contributes its indexed characters as own properties; spreading a
number, boolean, `null` or `undefined` contributes nothing. -/
def spreadPrim (v : JSVal) : Item :=
  match v with
  | .str s => (s.toList.enum.map (fun p => (toString p.1, JSVal.str (String.singleton p.2))))
  | _ => []

/-- `getListInputProps(field, index, listField)`: `Except.error ()` models the
`TypeError` thrown by `listValue[listField]` when `list[index]` is
`undefined`; `.ok none` is the explicit `return undefined` for a non-list
field; `.ok (some v)` is a descriptor binding the subfield value `v` (the
change handler it carries is modelled by `getListInputPropsOnChange`). -/
def getListInputProps (s : FormState) (field : String) (index : Nat)
    (listField : String) : Except Unit (Option JSVal) :=
  match getF s.values field with
  | .flist items =>
      if h : index < items.length then
        .ok (some (propGet (items.get ⟨index, h⟩) listField))
      else .error ()
  | _ => .ok none

/-- The state transition performed when the change handler produced by
`getListInputProps(field, index, listField)` is invoked with raw value `val`:
`setListItem(field, index, { ...value, [listField]: val })`, where `value` is
the captured subfield value `list[index][listField]`. Invoking the adapter on
a non-list field yields no handler, so the state is returned unchanged, and
the out-of-range `TypeError` of the adapter itself is propagated. -/
def getListInputPropsOnChange (s : FormState) (field : String) (index : Nat)
    (listField : String) (val : JSVal) : Except Unit FormState :=
  match getF s.values field with
  | .flist items =>
      if h : index < items.length then
        let value := propGet (items.get ⟨index, h⟩) listField
        .ok (setListItem s field index (setKey (spreadPrim value) listField val))
      else .error ()
  | _ => .ok s

/-- A validation rule, modelled from the spec (the file
`validate-values/validate-values.ts` is not under `src/`): a Scalar rule is a
pure function from the field value and the full value set to an
error-or-none; a ListOf rule maps each item subfield to a nested scalar rule
applied to every item of the list field. -/
inductive Rule where
  | scalar (f : FVal → ValueStore → Option FVal)
  | listOf (sub : List (String × (JSVal → Option JSVal)))

/-- Modelled from the spec: per-item evaluation of a ListOf rule, yielding a
per-subfield error object for one item (subfields whose rule passes produce
no key). -/
def validateItem (sub : List (String × (JSVal → Option JSVal))) (item : Item) :
    Item :=
  sub.filterMap (fun kr => (kr.2 (propGet item kr.1)).map (fun e => (kr.1, e)))

/-- Modelled from the spec: `validateValues(rules, values)` evaluates each
field that has a rule — a Scalar rule on `(values[field], values)`, a ListOf
rule once per item of the list-tagged field value — and returns the error
mapping together with the derived `hasErrors` flag, true iff any field
produced a non-empty error, scalar or nested. -/
def validateValues (rules : List (String × Rule)) (values : ValueStore) :
    ErrorStore × Bool :=
  let errs := rules.filterMap (fun fr =>
    match fr.2 with
    | .scalar fn => (fn (getF values fr.1) values).map (fun e => (fr.1, e))
    | .listOf sub =>
        match getF values fr.1 with
        | .flist items =>
            let itemErrs := items.map (fun it => validateItem sub it)
            if itemErrs.all (fun e => e.isEmpty) then none
            else some (fr.1, FVal.flist itemErrs)
        | _ => none)
  (errs, !errs.isEmpty)

/-- `validate()`: runs `validateValues`, replaces the error store, and
returns the results. -/
def validate (rules : List (String × Rule)) (s : FormState) :
    FormState × (ErrorStore × Bool) :=
  let results := validateValues rules s.values
  ({ s with errors := results.1 }, results)

/-- Outcome of running the handler returned by `onSubmit`: the new state and,
when the success callback was invoked, the values snapshot it received. -/
structure SubmitOutcome where
  state : FormState
  submitted : Option ValueStore
  deriving DecidableEq

/-- The handler returned by `onSubmit(handleSubmit)`, applied to an optional
event: `event.preventDefault()` throws a `TypeError` when the event is
absent (modelled as `Except.error ()`, before any validation runs);
otherwise it validates and calls `handleSubmit(values, event)` only when
`hasErrors` is false. -/
def onSubmit (rules : List (String × Rule)) (s : FormState)
    (event : Option Unit) : Except Unit SubmitOutcome :=
  match event with
  | none => .error ()
  | some _ =>
      let vr := validate rules s
      .ok { state := vr.1
            submitted := if vr.2.2 then none else some vr.1.values }

/-- `reset()`: restores the initial values and empties the error store. -/
def reset (initialValues : ValueStore) (s : FormState) : FormState :=
  clearErrors { s with values := initialValues }

/-- The ErrorStore invariant: every present key holds a truthy error. -/
def errStoreOk (e : ErrorStore) : Bool :=
  e.all (fun kv => kv.2.truthy)

theorem lookupKey_setKey_self {α : Type} (m : List (String × α)) (k : String) (v : α) :
    lookupKey (setKey m k v) k = some v := by
  induction m with
  | nil => simp [setKey, lookupKey]
  | cons kv rest ih =>
      obtain ⟨k0, v0⟩ := kv
      by_cases h : k0 = k
      · simp [setKey, h, lookupKey]
      · simp [setKey, h, lookupKey, ih]

theorem lookupKey_setKey_other {α : Type} (m : List (String × α)) (k g : String) (v : α)
    (h : g ≠ k) : lookupKey (setKey m k v) g = lookupKey m g := by
  have hkg : ¬ k = g := fun hh => h (Eq.symm hh)
  induction m with
  | nil => simp [setKey, lookupKey, hkg]
  | cons kv rest ih =>
      obtain ⟨k0, v0⟩ := kv
      by_cases h0 : k0 = k
      · subst h0
        simp [setKey, lookupKey, hkg]
      · simp [setKey, h0, lookupKey, ih]

theorem lookupKey_eraseKey_self {α : Type} (m : List (String × α)) (k : String) :
    lookupKey (eraseKey m k) k = none := by
  induction m with
  | nil => rfl
  | cons kv rest ih =>
      obtain ⟨k0, v0⟩ := kv
      simp only [eraseKey] at ih ⊢
      by_cases h : k0 = k
      · simpa [List.filter_cons, h] using ih
      · simp [List.filter_cons, h, lookupKey, ih]

theorem lookupKey_eraseKey_other {α : Type} (m : List (String × α)) (k g : String)
    (h : g ≠ k) : lookupKey (eraseKey m k) g = lookupKey m g := by
  have hkg : ¬ k = g := fun hh => h (Eq.symm hh)
  induction m with
  | nil => rfl
  | cons kv rest ih =>
      obtain ⟨k0, v0⟩ := kv
      simp only [eraseKey] at ih ⊢
      by_cases h0 : k0 = k
      · subst h0
        simp [List.filter_cons, lookupKey, hkg, ih]
      · simp [List.filter_cons, h0, lookupKey, ih]

theorem getF_setKey_self (m : ValueStore) (k : String) (v : FVal) :
    getF (setKey m k v) k = v := by
  simp [getF, lookupKey_setKey_self]

theorem getF_setKey_other (m : ValueStore) (k g : String) (v : FVal) (h : g ≠ k) :
    getF (setKey m k v) g = getF m g := by
  simp [getF, lookupKey_setKey_other m k g v h]

theorem errStoreOk_setKey (e : ErrorStore) (k : String) (v : FVal)
    (he : errStoreOk e = true) (hv : v.truthy = true) :
    errStoreOk (setKey e k v) = true := by
  induction e with
  | nil => simp [errStoreOk, setKey, hv]
  | cons kv rest ih =>
      obtain ⟨k0, v0⟩ := kv
      simp only [errStoreOk, List.all_cons, Bool.and_eq_true] at he
      by_cases h : k0 = k
      · simp [errStoreOk, setKey, h, hv, he.2]
      · have := ih he.2
        simp only [errStoreOk] at this
        simp [errStoreOk, setKey, h, he.1, this]

theorem errStoreOk_eraseKey (e : ErrorStore) (k : String)
    (he : errStoreOk e = true) : errStoreOk (eraseKey e k) = true := by
  simp only [errStoreOk, eraseKey, List.all_eq_true] at he ⊢
  intro kv hkv
  exact he kv (List.mem_of_mem_filter hkv)

theorem filterIdx_sublist {α : Type} (p : Nat → α → Bool) (n : Nat) (l : List α) :
    (filterIdx p n l).Sublist l := by
  induction l generalizing n with
  | nil => simp [filterIdx]
  | cons x xs ih =>
      simp only [filterIdx]
      split
      · exact (ih (n + 1)).cons₂ x
      · exact (ih (n + 1)).cons x

theorem filterIdx_congr {α : Type} (p q : Nat → α → Bool) (n : Nat) (l : List α)
    (h : ∀ i x, p i x = q i x) : filterIdx p n l = filterIdx q n l := by
  induction l generalizing n with
  | nil => rfl
  | cons x xs ih => simp only [filterIdx, h, ih]

theorem filterIdx_shift {α : Type} (p : Nat → α → Bool) (n : Nat) (l : List α) :
    filterIdx p (n + 1) l = filterIdx (fun i x => p (i + 1) x) n l := by
  induction l generalizing n with
  | nil => rfl
  | cons x xs ih => simp only [filterIdx, ih]

theorem filterIdx_all_keep {α : Type} (p : Nat → α → Bool) (n : Nat) (l : List α)
    (h : ∀ i x, n ≤ i → i < n + l.length → p i x = true) :
    filterIdx p n l = l := by
  induction l generalizing n with
  | nil => rfl
  | cons x xs ih =>
      have hx : p n x = true := h n x (Nat.le_refl n) (by simp)
      simp only [filterIdx, hx, if_true]
      rw [ih (n + 1)]
      intro i x hi hilt
      refine h i x (Nat.le_of_succ_le hi) ?hb
      simp only [List.length_cons]
      omega

theorem filterIdx_bne_eraseIdx {α : Type} (l : List α) (i : Nat) :
    filterIdx (fun j _ => j != i) 0 l = l.eraseIdx i := by
  induction l generalizing i with
  | nil => rfl
  | cons x xs ih =>
      cases i with
      | zero =>
          show filterIdx (fun j _ => j != 0) 1 xs = xs
          rw [filterIdx_shift]
          exact filterIdx_all_keep _ 0 xs (fun i x _ _ => by simp)
      | succ m =>
          show x :: filterIdx (fun j _ => j != m + 1) 1 xs = x :: xs.eraseIdx m
          rw [filterIdx_shift,
            filterIdx_congr (fun i _ => ((i + 1) != (m + 1))) (fun i _ => (i != m)) 0 xs
              (fun i x => by simp)]
          exact congrArg (x :: ·) (ih m)

theorem eraseIdx_append_singleton {α : Type} (l : List α) (p : α) :
    (l ++ [p]).eraseIdx l.length = l := by
  induction l with
  | nil => rfl
  | cons x xs ih => exact congrArg (x :: ·) ih

theorem setFieldValue_values (s : FormState) (f : String) (v : FVal) :
    (setFieldValue s f v).values = setKey s.values f v :=
  rfl

theorem setFieldValue_errors (s : FormState) (f : String) (v : FVal) :
    (setFieldValue s f v).errors = eraseKey s.errors f :=
  rfl

theorem errStoreOk_filterErrors (e : ErrorStore) :
    errStoreOk (filterErrors e) = true := by
  simp only [errStoreOk, filterErrors, List.all_eq_true]
  intro kv hkv
  exact (List.mem_filter.mp hkv).2

/-! Concrete sample data used by witnesses and counterexamples. -/

/-- Sample item `{title: "dev", active: true}`. -/
def itemDev : Item := [("title", .str "dev"), ("active", .bool true)]

/-- Sample state with one list-tagged field holding `[itemDev]`. -/
def sJobs : FormState :=
  useForm [("name", .prim (.str "bob")), ("jobs", .flist [itemDev])] []

/-- The item the buggy merge in `getListInputProps` produces from `itemDev`
when its handler for subfield `title` receives `"qa"`: the spread of the old
subfield string `"dev"` plus the new subfield value. -/
def itemMerged : Item :=
  [("0", .str "d"), ("1", .str "e"), ("2", .str "v"), ("title", .str "qa")]

/-- Four distinguishable sample items. -/
def itA : Item := [("tag", .str "A")]

def itB : Item := [("tag", .str "B")]

def itC : Item := [("tag", .str "C")]

def itD : Item := [("tag", .str "D")]

/-- Sample state with a four-item list-tagged field. -/
def sTags : FormState :=
  useForm [("tags", .flist [itA, itB, itC, itD])] []

/-- Sample state with a list-tagged field that currently has an error. -/
def sTagsErr : FormState :=
  useForm [("tags", .flist [itA, itB])] [("tags", .prim (.str "too short"))]

/-- A sample rule set: `name` is required to be a non-empty string. -/
def wRules : List (String × Rule) :=
  [("name", Rule.scalar (fun v _ =>
    if v = FVal.prim (.str "") then some (.prim (.str "required")) else none))]

/-- A sample state on which `wRules` passes. -/
def wStateOk : FormState := useForm [("name", .prim (.str "ok"))] []

/-- A sample state on which `wRules` fails. -/
def wStateBad : FormState := useForm [("name", .prim (.str ""))] []

/-! Claim theorems. -/

/-- C1: evaluating the code at a concrete input shows that the change handler
produced by `getListInputProps(field, index, subfield)` does NOT merge the new
subfield value into the existing item record: it spreads the old subfield
value (`{...value, [listField]: val}` with `value = list[index][listField]`)
instead of the item, so the sibling subfield `active` of the item is dropped
(it reads back `undefined` in the new item, while it was `true` before). -/
theorem getListInputProps_onChange_drops_siblings :
    getListInputPropsOnChange sJobs "jobs" 0 "title" (.str "qa")
      = .ok { values := [("name", .prim (.str "bob")), ("jobs", .flist [itemMerged])],
              errors := [] }
    ∧ propGet itemDev "active" = .bool true
    ∧ propGet itemMerged "active" = .undefined :=
  ⟨rfl, rfl, rfl⟩

/-- C2: on a field that is not list-tagged, `getListInputProps` returns the
explicit `undefined` descriptor, but on a list-tagged field with an
out-of-range index it does not return `undefined`: it throws (the unguarded
`listValue[listField]` read dereferences `undefined`), contradicting the
claim that it never raises. -/
theorem getListInputProps_out_of_range_throws :
    getListInputProps sJobs "name" 0 "title" = .ok none
    ∧ getListInputProps sJobs "jobs" 5 "title" = .error () :=
  ⟨rfl, rfl⟩

/-- C3 counterexample: from a reachable state (freshly constructed form),
`setFieldError` with an empty-string error stores the key with a falsy value,
violating the ErrorStore invariant. -/
theorem setFieldError_falsy_counterexample :
    errStoreOk (setFieldError (useForm [("age", .prim (.num 20))] []) "age"
      (.prim (.str ""))).errors = false :=
  rfl

/-- C3 (amended): construction from `initialErrors` filters falsy values,
`clearFieldError` and `clearErrors` preserve the ErrorStore invariant, and
`setFieldError` preserves it when the supplied error is truthy; the raw
`setErrors` setter applies no filter, so it yields an invariant store exactly
when its input already satisfies the invariant. -/
theorem errorStore_invariant_spec :
    (∀ (v : ValueStore) (e0 : ErrorStore), errStoreOk (useForm v e0).errors = true)
    ∧ (∀ (s : FormState) (f : String), errStoreOk s.errors = true →
        errStoreOk (clearFieldError s f).errors = true)
    ∧ (∀ s : FormState, errStoreOk (clearErrors s).errors = true)
    ∧ (∀ (s : FormState) (f : String) (err : FVal), errStoreOk s.errors = true →
        err.truthy = true → errStoreOk (setFieldError s f err).errors = true)
    ∧ (∀ (s : FormState) (e : ErrorStore), errStoreOk e = true →
        errStoreOk (setErrors s e).errors = true) := by
  refine ⟨fun v e0 => errStoreOk_filterErrors e0, fun s f he => ?h2, fun s => rfl,
    fun s f err he hv => ?h4, fun s e he => he⟩
  · exact errStoreOk_eraseKey s.errors f he
  · exact errStoreOk_setKey s.errors f err he hv

theorem errorStore_invariant_spec_witness :
    errStoreOk (setFieldError (useForm [] [("age", .prim (.str ""))]) "name"
      (.prim (.str "required"))).errors = true :=
  errorStore_invariant_spec.2.2.2.1 (useForm [] [("age", .prim (.str ""))]) "name"
    (.prim (.str "required")) rfl rfl

/-- C4: on a list-tagged field, when both indices reference existing items,
`reorderListItem(field, {from, to})` removes the item at `from` and reinserts
it at position `to` of the post-removal sequence; when either index is out of
range the whole state is unchanged. -/
theorem reorderListItem_spec (s : FormState) (f : String) (items : List Item)
    (i j : Nat) (hf : getF s.values f = .flist items) :
    (∀ hi : i < items.length, j < items.length →
        getF (reorderListItem s f i j).values f
          = .flist (List.insertIdx j (items.get ⟨i, hi⟩) (items.eraseIdx i)))
    ∧ (items.length ≤ i ∨ items.length ≤ j → reorderListItem s f i j = s) := by
  constructor
  · intro hi hj
    have hlen : (items.eraseIdx i).length + 1 = items.length :=
      List.length_eraseIdx_add_one hi
    have hmin : min j (items.eraseIdx i).length = j := Nat.min_eq_left (by omega)
    simp only [reorderListItem, hf]
    rw [dif_pos ⟨hi, hj⟩]
    show getF (setKey s.values f _) f = _
    rw [getF_setKey_self]
    simp only [formList, spliceInsert, hmin]
  · intro hout
    simp only [reorderListItem, hf]
    rw [dif_neg]
    intro hc
    rcases hout with h1 | h1
    · exact absurd hc.1 (by omega)
    · exact absurd hc.2 (by omega)

theorem reorderListItem_spec_witness :
    getF (reorderListItem sTags "tags" 0 2).values "tags"
      = .flist [itB, itC, itA, itD] := by
  have h := (reorderListItem_spec sTags "tags" [itA, itB, itC, itD] 0 2 rfl).1
    (by decide) (by decide)
  rw [h]
  rfl

/-- C5: on a list-tagged field, `removeListItem` retains exactly the items
whose original index is not in the removal set, in original relative order
(the result is a sublist of the original); a single valid index removes
exactly that item, shrinking the length by one, and a single invalid index
leaves the list content and its list tag unchanged. -/
theorem removeListItem_spec (s : FormState) (f : String) (items : List Item)
    (hf : getF s.values f = .flist items) :
    (∀ js : List Nat,
        getF (removeListItem s f (.multiple js)).values f
          = .flist (filterIdx (fun i _ => !js.contains i) 0 items)
        ∧ (filterIdx (fun i _ => !js.contains i) 0 items).Sublist items)
    ∧ (∀ i : Nat, i < items.length →
        getF (removeListItem s f (.single i)).values f = .flist (items.eraseIdx i)
        ∧ (items.eraseIdx i).length + 1 = items.length)
    ∧ (∀ i : Nat, items.length ≤ i →
        getF (removeListItem s f (.single i)).values f = .flist items) := by
  refine ⟨fun js => ⟨?hm, filterIdx_sublist _ 0 items⟩, fun i hi => ⟨?hv, ?hl⟩,
    fun i hi => ?hinv⟩
  · simp only [removeListItem, hf, formList, Indices.keeps, setFieldValue_values]
    rw [getF_setKey_self]
  · simp only [removeListItem, hf, formList, Indices.keeps, setFieldValue_values]
    rw [getF_setKey_self, filterIdx_bne_eraseIdx]
  · exact List.length_eraseIdx_add_one hi
  · simp only [removeListItem, hf, formList, Indices.keeps, setFieldValue_values]
    rw [getF_setKey_self, filterIdx_bne_eraseIdx, List.eraseIdx_of_length_le hi]

theorem removeListItem_spec_witness :
    getF (removeListItem sTags "tags" (.single 1)).values "tags"
      = .flist [itA, itC, itD]
    ∧ getF (removeListItem sTags "tags" (.single 9)).values "tags"
      = .flist [itA, itB, itC, itD] := by
  have h1 := ((removeListItem_spec sTags "tags" [itA, itB, itC, itD] rfl).2.1 1
    (by decide)).1
  have h2 := (removeListItem_spec sTags "tags" [itA, itB, itC, itD] rfl).2.2 9
    (by decide)
  exact ⟨h1, h2⟩

/-- C6: on a list-tagged field, `addListItem(field, payload)` followed by
`removeListItem(field, originalLength)` (the index of the newly appended
item) yields a list content-equal to the original list. -/
theorem addListItem_removeListItem_spec (s : FormState) (f : String)
    (items : List Item) (payload : Item) (hf : getF s.values f = .flist items) :
    getF (removeListItem (addListItem s f payload) f (.single items.length)).values f
      = .flist items := by
  have h1 : getF (addListItem s f payload).values f = .flist (items ++ [payload]) := by
    simp only [addListItem, hf, formList]
    exact getF_setKey_self s.values f _
  simp only [removeListItem, h1, formList, Indices.keeps, setFieldValue_values]
  rw [getF_setKey_self, filterIdx_bne_eraseIdx, eraseIdx_append_singleton]

theorem addListItem_removeListItem_spec_witness :
    getF (removeListItem (addListItem sTags "tags" itemDev) "tags"
      (.single 4)).values "tags" = .flist [itA, itB, itC, itD] :=
  addListItem_removeListItem_spec sTags "tags" [itA, itB, itC, itD] itemDev rfl

/-- C7: `setFieldValue(field, value)` stores the value at the field, leaves
every other field's value unchanged, removes any error key for the field, and
leaves other error keys unchanged. -/
theorem setFieldValue_spec (s : FormState) (f g : String) (v : FVal) (hg : g ≠ f) :
    getF (setFieldValue s f v).values f = v
    ∧ getF (setFieldValue s f v).values g = getF s.values g
    ∧ lookupKey (setFieldValue s f v).errors f = none
    ∧ lookupKey (setFieldValue s f v).errors g = lookupKey s.errors g :=
  ⟨getF_setKey_self s.values f v, getF_setKey_other s.values f g v hg,
    lookupKey_eraseKey_self s.errors f, lookupKey_eraseKey_other s.errors f g hg⟩

theorem setFieldValue_spec_witness :
    getF (setFieldValue sTagsErr "tags" (.prim (.num 3))).values "tags"
        = .prim (.num 3)
    ∧ getF (setFieldValue sTagsErr "tags" (.prim (.num 3))).values "other"
        = getF sTagsErr.values "other"
    ∧ lookupKey (setFieldValue sTagsErr "tags" (.prim (.num 3))).errors "tags" = none
    ∧ lookupKey (setFieldValue sTagsErr "tags" (.prim (.num 3))).errors "other"
        = lookupKey sTagsErr.errors "other" :=
  setFieldValue_spec sTagsErr "tags" "other" (.prim (.num 3)) (by decide)

/-- C8: the handler returned by `onSubmit` (invoked with an event) reaches
the success callback exactly when full validation reports no errors: when
`hasErrors` is true the callback is not invoked, when it is false the
callback receives the values snapshot; moreover `hasErrors` is false exactly
when the computed error mapping is empty (all rules pass). -/
theorem onSubmit_spec (rules : List (String × Rule)) (s : FormState) :
    ((validateValues rules s.values).2 = true →
        onSubmit rules s (some ()) =
          .ok { state := { s with errors := (validateValues rules s.values).1 },
                submitted := none })
    ∧ ((validateValues rules s.values).2 = false →
        onSubmit rules s (some ()) =
          .ok { state := { s with errors := (validateValues rules s.values).1 },
                submitted := some s.values })
    ∧ ((validateValues rules s.values).2 = false ↔
        (validateValues rules s.values).1 = []) := by
  refine ⟨fun h => ?ha, fun h => ?hb, ?hc⟩
  · simp [onSubmit, validate, h]
  · simp [onSubmit, validate, h]
  · have hproj : (validateValues rules s.values).2
        = !((validateValues rules s.values).1).isEmpty := rfl
    rw [hproj]
    cases hE : ((validateValues rules s.values).1).isEmpty with
    | true =>
        have hnil := List.isEmpty_iff.mp hE
        simp [hnil]
    | false =>
        have hne : ((validateValues rules s.values).1) ≠ [] := by
          intro hnil
          rw [hnil] at hE
          simp at hE
        simp [hne]

theorem onSubmit_spec_witness :
    onSubmit wRules wStateOk (some ()) =
      .ok { state := { wStateOk with errors := (validateValues wRules wStateOk.values).1 },
            submitted := some wStateOk.values }
    ∧ onSubmit wRules wStateBad (some ()) =
      .ok { state := { wStateBad with errors := (validateValues wRules wStateBad.values).1 },
            submitted := none } :=
  ⟨(onSubmit_spec wRules wStateOk).2.1 rfl, (onSubmit_spec wRules wStateBad).1 rfl⟩

/-- C9: invoking the handler returned by `onSubmit` with no event argument
dereferences the missing event (`event.preventDefault()`) and throws before
any validation runs, for every rule set and every state: the event parameter
is effectively required. -/
theorem onSubmit_noEvent_throws (rules : List (String × Rule)) (s : FormState) :
    onSubmit rules s none = .error () :=
  rfl

/-- C10: on a list-tagged field, `removeListItem` routes through
`setFieldValue` even when every given index is out of range: the stored list
keeps its tag and content, but the field's ErrorStore key is removed — so an
all-invalid removal is not a true no-op on the form state. -/
theorem removeListItem_invalid_clears_error (s : FormState) (f : String)
    (items : List Item) (js : List Nat) (hf : getF s.values f = .flist items)
    (hinv : ∀ i ∈ js, items.length ≤ i) :
    getF (removeListItem s f (.multiple js)).values f = .flist items
    ∧ (removeListItem s f (.multiple js)).errors = eraseKey s.errors f
    ∧ lookupKey (removeListItem s f (.multiple js)).errors f = none := by
  have hkeep : filterIdx (fun i _ => Indices.keeps (.multiple js) i) 0 items = items := by
    apply filterIdx_all_keep
    intro i x h0 hlt
    have hmem : ¬ i ∈ js := fun hmem => by
      have := hinv i hmem
      omega
    simp [Indices.keeps, hmem]
  refine ⟨?h1, ?h2, ?h3⟩
  · simp only [removeListItem, hf, formList, hkeep, setFieldValue_values]
    exact getF_setKey_self s.values f _
  · simp only [removeListItem, hf, formList]
    rfl
  · simp only [removeListItem, hf, formList, setFieldValue_errors]
    exact lookupKey_eraseKey_self s.errors f

theorem removeListItem_invalid_clears_error_witness :
    getF (removeListItem sTagsErr "tags" (.multiple [7, 9])).values "tags"
      = .flist [itA, itB]
    ∧ (removeListItem sTagsErr "tags" (.multiple [7, 9])).errors
      = eraseKey sTagsErr.errors "tags"
    ∧ lookupKey (removeListItem sTagsErr "tags" (.multiple [7, 9])).errors "tags"
      = none :=
  removeListItem_invalid_clears_error sTagsErr "tags" [itA, itB] [7, 9] rfl (by decide)

end Mantine
